import Mathlib

/-!
Shallow embedding of `src/main.go` of the repository `yzs981130/yzs981130`:
a single linear pipeline that queries the GitHub GraphQL API for the
most recently pushed public repositories of the viewer, transforms each node
into a flat display record, stable-sorts viewer-authored records to the
front, renders a Markdown table row per record with the Go `html/template` package,
appends header and rows to a staging file and renames it to `README.md`.

Conventions of the embedding:
* `time.Time` and `time.Duration` are modelled as `Int` nanoseconds
  (the Go `Duration` type is an `int64` nanosecond count).  Go truncated
  integer division and remainder on `int64` are `Int.tdiv` / `Int.tmod`.
* Go slices are Lean lists; an out-of-range index access, which panics at
  runtime in Go, is modelled as `Except.error`.
* The one network call is modelled by passing the decoded query result
  (or the query error) as an `Except` argument to `fetchLatestProjects`.
* The filesystem is an association list from file names to contents;
  `os.OpenFile`, `File.WriteString`/`Write` and `os.Rename` are modelled
  with the exact error-discarding behaviour of the Go source (`f, _ :=`,
  `_, _ =`, `_ =`).
-/

namespace GithubReadme

/-! ### Constants (src/main.go lines 60-64) -/

def latestRepoCnt : Nat := 5

def enableSortByName : Bool := true

def originReadmeFile : String := "./README-1.md"

/-! ### Decoded GraphQL query shape (src/main.go lines 96-137)

The struct nesting mirrors the Go query struct field for field; fields
the code never reads (`Description`, `IsFork`) are kept for fidelity. -/

structure GqlUser where
  Login : String
  Url : String
deriving DecidableEq, Repr

structure GqlAuthor where
  User : GqlUser
deriving DecidableEq, Repr

structure HistoryNode where
  CommitUrl : String
  AbbreviatedOid : String
  Author : GqlAuthor
deriving DecidableEq, Repr

structure HistoryEdge where
  Node : HistoryNode
deriving DecidableEq, Repr

structure CommitHistory where
  Edges : List HistoryEdge
deriving DecidableEq, Repr

structure CommitTarget where
  History : CommitHistory
deriving DecidableEq, Repr

structure RefTarget where
  Commit : CommitTarget
deriving DecidableEq, Repr

structure RefNode where
  Name : String
  Target : RefTarget
deriving DecidableEq, Repr

structure RefEdge where
  Node : RefNode
deriving DecidableEq, Repr

structure RepoRefs where
  Edges : List RefEdge
deriving DecidableEq, Repr

structure PrimaryLanguage where
  Name : String
deriving DecidableEq, Repr

structure RepoNode where
  Name : String
  Description : String
  Url : String
  PrimaryLanguage : PrimaryLanguage
  PushedAt : Int
  IsFork : Bool
  Refs : RepoRefs
deriving DecidableEq, Repr

structure Repositories where
  Nodes : List RepoNode
deriving DecidableEq, Repr

structure Viewer where
  Login : String
  Repositories : Repositories
deriving DecidableEq, Repr

/-! ### Display record (src/main.go lines 66-82) -/

structure latestProjectEntry where
  RepoName : String
  RepoUrl : String
  RepoLang : String
  BranchName : String
  BranchUrl : String
  CommitID : String
  CommitUrl : String
  CommitAuthorID : String
  CommitAuthorUrl : String
  Time : String
deriving DecidableEq, Repr

/-! ### Durations -/

/-- Nanoseconds in one minute (`time.Minute`). -/
def nsMinute : Int := 60 * 1000000000

/-- Nanoseconds in one hour (`time.Hour`). -/
def nsHour : Int := 60 * nsMinute

/-- Smallest `time.Duration` value (`int64` minimum). -/
def minDuration : Int := -(2 ^ 63)

/-- Largest `time.Duration` value (`int64` maximum). -/
def maxDuration : Int := 2 ^ 63 - 1

/-- Go standard library `time.Duration.Round`: rounds `d` to the nearest
multiple of `m`, rounding half away from zero.  The two saturation
branches reproduce the `int64` overflow guards of the Go source
(`if d1 := d + m - r; d1 > d` detects wrap-around, which over `Int` is
exactly a comparison against `maxDuration` / `minDuration`). -/
def durationRound (d m : Int) : Int :=
  if m ≤ 0 then d
  else
    let r := d.tmod m
    if d < 0 then
      let r2 := -r
      if r2 + r2 < m then d + r2
      else if minDuration ≤ d - m + r2 then d - m + r2
      else minDuration
    else
      if r + r < m then d - r
      else if d + m - r ≤ maxDuration then d + m - r
      else maxDuration

/-- src/main.go lines 84-89: `fmtDuration` prints a duration as
`"<H> hours <M> minutes"` using truncated `int64` division; there is
no day or week unit, so the hour count is unbounded. -/
def fmtDuration (d : Int) : String :=
  let h := d.tdiv nsHour
  let d2 := d - h * nsHour
  let m := d2.tdiv nsMinute
  toString h ++ " hours " ++ toString m ++ " minutes"

/-! ### Transform stage (src/main.go lines 146-164) -/

/-- Body of the `for _, repo := range ...` loop (src/main.go lines
146-163): builds one display record from one repository node.  The Go
code indexes `repo.Refs.Edges[0]` and `...History.Edges[0]` without a
guard; an empty slice panics at runtime, modelled as `Except.error`. -/
def buildEntryCore (baseTime : Int) (repo : RepoNode) (refEdge : RefEdge)
    (histEdge : HistoryEdge) : latestProjectEntry :=
  let entry : latestProjectEntry :=
    { RepoName := repo.Name
      RepoUrl := repo.Url
      RepoLang := repo.PrimaryLanguage.Name
      BranchName := refEdge.Node.Name
      BranchUrl := repo.Url ++ "/tree/" ++ refEdge.Node.Name
      CommitUrl := histEdge.Node.CommitUrl
      CommitID := histEdge.Node.AbbreviatedOid
      CommitAuthorID := histEdge.Node.Author.User.Login
      CommitAuthorUrl := histEdge.Node.Author.User.Url
      Time := "" }
  let durationTime := durationRound (baseTime - repo.PushedAt) nsMinute
  let entry := { entry with Time := fmtDuration durationTime }
  let entry :=
    if entry.RepoLang = "" then { entry with RepoLang := "unknown" } else entry
  entry

/-- The loop body wrapped with the two unguarded index accesses
`repo.Refs.Edges[0]` and `...History.Edges[0]`. -/
def buildEntry (baseTime : Int) (repo : RepoNode) : Except String latestProjectEntry :=
  match repo.Refs.Edges with
  | [] => Except.error "runtime error: index out of range"
  | refEdge :: _ =>
    match refEdge.Node.Target.Commit.History.Edges with
    | [] => Except.error "runtime error: index out of range"
    | histEdge :: _ => Except.ok (buildEntryCore baseTime repo refEdge histEdge)

/-- The transform loop over all repository nodes; the first faulting
node aborts the whole stage, as a Go panic would. -/
def parseNodes (baseTime : Int) : List RepoNode → Except String (List latestProjectEntry)
  | [] => Except.ok []
  | repo :: rest => do
    let e ← buildEntry baseTime repo
    let es ← parseNodes baseTime rest
    Except.ok (e :: es)

/-! ### Order stage (src/main.go lines 165-169) -/

/-- The comparator closure passed to `sort.SliceStable`:
`result[i].CommitAuthorID == query.Viewer.Login && result[j].CommitAuthorID != query.Viewer.Login`. -/
def lessViewer (login : String) (a b : latestProjectEntry) : Bool :=
  (a.CommitAuthorID == login) && !(b.CommitAuthorID == login)

/-- Stable insertion of `x` into `l`: `x` is placed before the first
element `y` of `l` with `less y x = false`.  Elements equivalent to `x`
that are already in `l` therefore stay in front of `x` only when they
compare strictly below it, which is the stability discipline of
`sort.SliceStable`. -/
def insertStable (less : α → α → Bool) (x : α) : List α → List α
  | [] => [x]
  | y :: ys => if less y x then y :: insertStable less x ys else x :: y :: ys

/-- Model of Go `sort.SliceStable`: a stable insertion sort.  The
`sort.SliceStable` contract (for a `less` that is a strict weak order,
as the viewer comparator is) determines the output uniquely: it is a
permutation, sorted under `less`, with equivalent elements in input
order; stable insertion sort realises exactly that contract. -/
def sliceStableSort (less : α → α → Bool) : List α → List α
  | [] => []
  | x :: xs => insertStable less x (sliceStableSort less xs)

/-- src/main.go lines 165-169: the ordering stage, guarded by the
`enableSortByName` toggle. -/
def orderStage (login : String) (result : List latestProjectEntry) : List latestProjectEntry :=
  if enableSortByName then sliceStableSort (lessViewer login) result else result

/-! ### Fetch stage (src/main.go lines 91-172) -/

/-- src/main.go `fetchLatestProjects`, with the network call abstracted
into the `resp` argument: a query error makes the function panic
(`panic(err)`, modelled as `Except.error`); otherwise the nodes are
transformed and the order stage runs. -/
def fetchLatestProjects (resp : Except String Viewer) (baseTime : Int) :
    Except String (List latestProjectEntry) := do
  let q ← resp
  let result ← parseNodes baseTime q.Repositories.Nodes
  Except.ok (orderStage q.Login result)

/-! ### Render stage (src/main.go lines 174-206)

The row template `markdownTableTmpl` contains no HTML tags, so the Go
`html/template` contextual auto-escaper puts every `{{.Field}}` action
in plain HTML text context and applies only `htmlEscaper` to it; the
static template text between actions is emitted verbatim.  Parsing the
fixed well-formed template literal and executing it on a struct of
string fields cannot fail, so the render stage is pure. -/

/-- Escape table of the text-context `htmlEscaper` of `html/template`
(`htmlReplacementTable`): ampersand, angle brackets, both quote
characters, plus, equals, and NUL (replaced by U+FFFD). -/
def escChar (c : Char) : String :=
  if c = '&' then "&amp;"
  else if c = '<' then "&lt;"
  else if c = '>' then "&gt;"
  else if c = Char.ofNat 34 then "&#34;"
  else if c = Char.ofNat 39 then "&#39;"
  else if c = '+' then "&#43;"
  else if c = '=' then "&#61;"
  else if c = Char.ofNat 0 then "�"
  else String.singleton c

/-- HTML-escape a whole interpolated field value. -/
def htmlEscape (s : String) : String :=
  s.toList.foldl (fun acc c => acc ++ escChar c) ""

/-- src/main.go lines 177-178 (`markdownTableTmpl`) executed on one
record: the static text of the template interleaved with the
HTML-escaped field values.  The raw-string template ends with a newline
before the closing backtick. -/
def renderRow (e : latestProjectEntry) : String :=
  "| [" ++ htmlEscape e.RepoName ++ "](" ++ htmlEscape e.RepoUrl ++
  ") | [" ++ htmlEscape e.BranchName ++ "](" ++ htmlEscape e.BranchUrl ++
  ") |[" ++ htmlEscape e.CommitID ++ "](" ++ htmlEscape e.CommitUrl ++
  ") | [@" ++ htmlEscape e.CommitAuthorID ++ "](" ++ htmlEscape e.CommitAuthorUrl ++
  ") |" ++ htmlEscape e.Time ++
  " | ![](https://img.shields.io/badge/language-" ++ htmlEscape e.RepoLang ++
  "-default.svg?style=flat-square)|\n"

/-- The render loop of `main` (src/main.go lines 195-206): one rendered
row per record appended in order to the buffer. -/
def renderAll (entries : List latestProjectEntry) : String :=
  String.join (entries.map renderRow)

/-- src/main.go lines 180-183 (`markdownTableHeaderTmpl`): the raw
string opens with a newline after the backtick and ends with a newline. -/
def markdownTableHeaderTmpl : String :=
  "\n| repo | branch | commit | author | time since | language |\n|:---:|:---:|:---:|:---:|:---:|:---:|\n"

/-! ### Write stage (src/main.go lines 208-213)

The filesystem is an association list from file name to content; lookup
returns the first binding. -/

/-- A filesystem snapshot: file name to file content. -/
def FS : Type := List (String × String)

/-- Content of a named file, if it exists. -/
def fsLookup : FS → String → Option String
  | [], _ => none
  | (k, v) :: rest, n => if k == n then some v else fsLookup rest n

/-- Delete every binding of a name. -/
def fsRemove (fs : FS) (n : String) : FS :=
  fs.filter (fun p => !(p.1 == n))

/-- Overwrite (or create) a file. -/
def fsSet (fs : FS) (n : String) (c : String) : FS :=
  (n, c) :: fsRemove fs n

/-- `os.OpenFile(name, os.O_WRONLY|os.O_APPEND, 0755)`: without
`O_CREATE` the open fails when the file does not exist.  The returned
handle is the file name; `none` is the failed open, whose error the Go
code discards (`f, _ :=` on line 209). -/
def osOpenFileAppend (fs : FS) (name : String) : Option String :=
  match fsLookup fs name with
  | some _ => some name
  | none => none

/-- `f.WriteString(s)` / `f.Write(b)` on a possibly-invalid handle: on a
nil handle the `os.File` methods return `ErrInvalid` without writing,
and the Go code discards the error (`_, _ =` on lines 211-212), so the
filesystem is unchanged; on a valid handle the bytes are appended. -/
def fileWriteString (fs : FS) (f : Option String) (s : String) : FS :=
  match f with
  | none => fs
  | some n =>
    match fsLookup fs n with
    | none => fs
    | some c => fsSet fs n (c ++ s)

/-- `os.Rename(old, new)`: fails (unchanged filesystem) when the source
does not exist; the Go code discards the error (`_ =` on line 213). -/
def osRename (fs : FS) (old new : String) : FS :=
  match fsLookup fs old with
  | none => fs
  | some c => fsSet (fsRemove fs old) new c

/-- src/main.go lines 208-213: open the staging file in append mode,
write the header then the rendered buffer, rename to `README.md`.
Every error along the way is discarded by the source, so the stage is a
total function on filesystem snapshots and can never abort. -/
def mainWriteStage (fs : FS) (buf : String) : FS :=
  let f := osOpenFileAppend fs originReadmeFile
  let fs1 := fileWriteString fs f markdownTableHeaderTmpl
  let fs2 := fileWriteString fs1 f buf
  osRename fs2 originReadmeFile "README.md"

/-- The whole of `main` after authentication: run the fetch (which may
panic on a query error or an out-of-range index), render the records,
and run the write stage.  The result pairs the panic message, if the
process panicked, with the filesystem at termination. -/
def mainModel (resp : Except String Viewer) (baseTime : Int) (fs : FS) :
    Option String × FS :=
  match fetchLatestProjects resp baseTime with
  | Except.error e => (some e, fs)
  | Except.ok r => (none, mainWriteStage fs (renderAll r))

/-! ### Lemmas about the stable sort under the viewer comparator

The comparator `lessViewer login` is `fun a b => p a && !p b` for the
predicate `p e = (e.CommitAuthorID == login)`.  Under such a two-class
comparator the stable sort is exactly the stable partition: records
satisfying `p` in input order, followed by records failing `p` in input
order. -/

lemma insertStable_pos (p : α → Bool) (x : α) (hx : p x = true) (l : List α) :
    insertStable (fun a b => p a && !p b) x l = x :: l := by
  cases l with
  | nil => rfl
  | cons y ys => simp [insertStable, hx]

lemma insertStable_neg (p : α → Bool) (x : α) (hx : p x = false) :
    ∀ (A B : List α), (∀ a ∈ A, p a = true) → (∀ b ∈ B, p b = false) →
      insertStable (fun a b => p a && !p b) x (A ++ B) = A ++ x :: B := by
  intro A
  induction A with
  | nil =>
    intro B _ hB
    cases B with
    | nil => rfl
    | cons b bs =>
      have hb : p b = false := hB b (List.mem_cons_self b bs)
      simp [insertStable, hb]
  | cons a A ih =>
    intro B hA hB
    have ha : p a = true := hA a (List.mem_cons_self a A)
    have ih' := ih B (fun a' ha' => hA a' (List.mem_cons_of_mem a ha')) hB
    simp [insertStable, ha, hx, ih']

lemma sliceStableSort_partition (p : α → Bool) (l : List α) :
    sliceStableSort (fun a b => p a && !p b) l =
      l.filter p ++ l.filter (fun a => !p a) := by
  induction l with
  | nil => rfl
  | cons x xs ih =>
    rw [sliceStableSort, ih]
    cases hx : p x with
    | true =>
      rw [insertStable_pos p x hx]
      simp [List.filter_cons, hx]
    | false =>
      rw [insertStable_neg p x hx (xs.filter p) (xs.filter (fun a => !p a))
        (fun a ha => List.of_mem_filter ha)
        (fun b hb => by simpa using List.of_mem_filter hb)]
      simp [List.filter_cons, hx]

/-- The order stage (toggle enabled) is the stable partition with the
records of the viewer first. -/
lemma orderStage_eq_partition (login : String) (l : List latestProjectEntry) :
    orderStage login l =
      l.filter (fun e => e.CommitAuthorID == login) ++
      l.filter (fun e => !(e.CommitAuthorID == login)) := by
  have h : lessViewer login =
      fun a b => (fun e : latestProjectEntry => e.CommitAuthorID == login) a &&
        !(fun e : latestProjectEntry => e.CommitAuthorID == login) b := rfl
  rw [orderStage]
  simp only [enableSortByName, if_true]
  rw [h, sliceStableSort_partition]

/-- C1: After the ordering stage runs (with the sort toggle enabled),
every display record whose commit-author id equals the login of the viewer
precedes every record whose commit-author id does not, regardless of the
positions the records held in the input sequence.  Stated as: in the output
sequence, whenever a record `a` comes anywhere before a record `b` and
`b` is viewer-authored, then `a` is viewer-authored too — equivalently,
no non-viewer record ever precedes a viewer record. -/
theorem c1_viewer_authored_records_precede (login : String) (l : List latestProjectEntry) :
    (orderStage login l).Pairwise
      (fun a b => (b.CommitAuthorID == login) = true →
        (a.CommitAuthorID == login) = true) := by
  rw [orderStage_eq_partition, List.pairwise_append]
  refine ⟨?_, ?_, ?_⟩
  · exact List.pairwise_of_forall_mem_list
      (fun a ha b _ _ => (List.mem_filter.mp ha).2)
  · refine List.pairwise_of_forall_mem_list (fun a _ b hb hbtrue => ?_)
    have hb' := (List.mem_filter.mp hb).2
    rw [hbtrue] at hb'
    exact absurd hb' (by decide)
  · exact fun a ha b _ _ => (List.mem_filter.mp ha).2

/-- C2: The ordering stage is stable.  Stated as: the subsequence of
non-viewer-authored records of the output equals the subsequence of
non-viewer-authored records of the input (so any two of them keep their
input relative order), and likewise for the viewer-authored records. -/
theorem c2_order_stage_stable (login : String) (l : List latestProjectEntry) :
    (orderStage login l).filter (fun e => !(e.CommitAuthorID == login)) =
      l.filter (fun e => !(e.CommitAuthorID == login)) ∧
    (orderStage login l).filter (fun e => e.CommitAuthorID == login) =
      l.filter (fun e => e.CommitAuthorID == login) := by
  constructor
  · rw [orderStage_eq_partition, List.filter_append]
    have h1 : (l.filter (fun e => e.CommitAuthorID == login)).filter
        (fun e => !(e.CommitAuthorID == login)) = [] :=
      List.filter_eq_nil_iff.mpr (fun a ha => by simp [(List.mem_filter.mp ha).2])
    have h2 : (l.filter (fun e => !(e.CommitAuthorID == login))).filter
        (fun e => !(e.CommitAuthorID == login)) =
          l.filter (fun e => !(e.CommitAuthorID == login)) :=
      List.filter_eq_self.mpr (fun a ha => (List.mem_filter.mp ha).2)
    rw [h1, h2, List.nil_append]
  · rw [orderStage_eq_partition, List.filter_append]
    have h1 : (l.filter (fun e => e.CommitAuthorID == login)).filter
        (fun e => e.CommitAuthorID == login) =
          l.filter (fun e => e.CommitAuthorID == login) :=
      List.filter_eq_self.mpr (fun a ha => (List.mem_filter.mp ha).2)
    have h2 : (l.filter (fun e => !(e.CommitAuthorID == login))).filter
        (fun e => e.CommitAuthorID == login) = [] :=
      List.filter_eq_nil_iff.mpr (fun a ha => by
        have := (List.mem_filter.mp ha).2
        simp at this
        simp [this])
    rw [h1, h2, List.append_nil]

/-! ### Lookup lemmas for the filesystem model -/

lemma fsLookup_fsRemove_self (fs : FS) (n : String) :
    fsLookup (fsRemove fs n) n = none := by
  induction fs with
  | nil => rfl
  | cons kv rest ih =>
    obtain ⟨k, v⟩ := kv
    by_cases hk : k = n
    · subst hk
      simpa [fsRemove, List.filter_cons] using ih
    · have hk' : (k == n) = false := by simpa using hk
      simp [fsRemove, List.filter_cons, hk', fsLookup] at ih ⊢
      simpa [fsRemove] using ih

lemma fsLookup_fsRemove_ne (fs : FS) (n m : String) (h : ¬ n = m) :
    fsLookup (fsRemove fs n) m = fsLookup fs m := by
  induction fs with
  | nil => rfl
  | cons kv rest ih =>
    obtain ⟨k, v⟩ := kv
    by_cases hk : k = n
    · subst hk
      have hkm : (k == m) = false := by simpa using h
      simp [fsRemove, List.filter_cons, fsLookup, hkm] at ih ⊢
      simpa [fsRemove] using ih
    · have hk' : (k == n) = false := by simpa using hk
      by_cases hkm : k = m
      · subst hkm
        simp [fsRemove, List.filter_cons, hk', fsLookup]
      · have hkm' : (k == m) = false := by simpa using hkm
        simp [fsRemove, List.filter_cons, hk', hkm', fsLookup] at ih ⊢
        simpa [fsRemove] using ih

lemma fsLookup_fsSet_self (fs : FS) (n c : String) :
    fsLookup (fsSet fs n c) n = some c := by
  simp [fsSet, fsLookup]

lemma fsLookup_fsSet_ne (fs : FS) (n c m : String) (h : ¬ n = m) :
    fsLookup (fsSet fs n c) m = fsLookup fs m := by
  have hn : (n == m) = false := by simpa using h
  simp [fsSet, fsLookup, hn, fsLookup_fsRemove_ne fs n m h]

/-- Explicit form of the write stage when the staging file exists with
content `prior`: header and buffer are appended, then the staging file
is renamed to `README.md`. -/
lemma mainWriteStage_of_staging (fs : FS) (prior buf : String)
    (h : fsLookup fs originReadmeFile = some prior) :
    mainWriteStage fs buf =
      fsSet
        (fsRemove
          (fsSet (fsSet fs originReadmeFile (prior ++ markdownTableHeaderTmpl))
            originReadmeFile ((prior ++ markdownTableHeaderTmpl) ++ buf))
          originReadmeFile)
        "README.md" ((prior ++ markdownTableHeaderTmpl) ++ buf) := by
  have e1 : osOpenFileAppend fs originReadmeFile = some originReadmeFile := by
    show (match fsLookup fs originReadmeFile with
      | some _ => some originReadmeFile
      | none => none) = some originReadmeFile
    rw [h]
  have e2 : fileWriteString fs (some originReadmeFile) markdownTableHeaderTmpl =
      fsSet fs originReadmeFile (prior ++ markdownTableHeaderTmpl) := by
    show (match fsLookup fs originReadmeFile with
      | none => fs
      | some c => fsSet fs originReadmeFile (c ++ markdownTableHeaderTmpl)) =
      fsSet fs originReadmeFile (prior ++ markdownTableHeaderTmpl)
    rw [h]
  have e3 : fileWriteString
      (fsSet fs originReadmeFile (prior ++ markdownTableHeaderTmpl))
      (some originReadmeFile) buf =
      fsSet (fsSet fs originReadmeFile (prior ++ markdownTableHeaderTmpl))
        originReadmeFile ((prior ++ markdownTableHeaderTmpl) ++ buf) := by
    show (match fsLookup (fsSet fs originReadmeFile (prior ++ markdownTableHeaderTmpl))
        originReadmeFile with
      | none => fsSet fs originReadmeFile (prior ++ markdownTableHeaderTmpl)
      | some c => fsSet (fsSet fs originReadmeFile (prior ++ markdownTableHeaderTmpl))
          originReadmeFile (c ++ buf)) =
      fsSet (fsSet fs originReadmeFile (prior ++ markdownTableHeaderTmpl))
        originReadmeFile ((prior ++ markdownTableHeaderTmpl) ++ buf)
    rw [fsLookup_fsSet_self]
  show osRename
      (fileWriteString
        (fileWriteString fs (osOpenFileAppend fs originReadmeFile)
          markdownTableHeaderTmpl)
        (osOpenFileAppend fs originReadmeFile) buf)
      originReadmeFile "README.md" = _
  rw [e1, e2, e3]
  show (match fsLookup
      (fsSet (fsSet fs originReadmeFile (prior ++ markdownTableHeaderTmpl))
        originReadmeFile ((prior ++ markdownTableHeaderTmpl) ++ buf))
      originReadmeFile with
    | none => fsSet (fsSet fs originReadmeFile (prior ++ markdownTableHeaderTmpl))
        originReadmeFile ((prior ++ markdownTableHeaderTmpl) ++ buf)
    | some c => fsSet
        (fsRemove
          (fsSet (fsSet fs originReadmeFile (prior ++ markdownTableHeaderTmpl))
            originReadmeFile ((prior ++ markdownTableHeaderTmpl) ++ buf))
          originReadmeFile)
        "README.md" c) = _
  rw [fsLookup_fsSet_self]

/-- C7: End-to-end write: given a pre-existing staging file with
arbitrary prior content and any list of well-formed display records,
after the run the output file `README.md` holds the prior content
followed by the header template followed by the rendered rows in order,
and the staging filename no longer exists. -/
theorem c7_write_appends_and_renames (fs : FS) (prior : String)
    (entries : List latestProjectEntry)
    (h : fsLookup fs originReadmeFile = some prior) :
    fsLookup (mainWriteStage fs (renderAll entries)) "README.md" =
      some (prior ++ (markdownTableHeaderTmpl ++ renderAll entries)) ∧
    fsLookup (mainWriteStage fs (renderAll entries)) originReadmeFile = none := by
  rw [mainWriteStage_of_staging fs prior (renderAll entries) h]
  constructor
  · rw [fsLookup_fsSet_self, String.append_assoc]
  · rw [fsLookup_fsSet_ne _ _ _ _ (by decide), fsLookup_fsRemove_self]

/-- Witness for C7 at a concrete filesystem and a concrete record. -/
theorem c7_write_appends_and_renames_witness :
    fsLookup [(originReadmeFile, "PRIOR")] originReadmeFile = some "PRIOR" ∧
    (fsLookup (mainWriteStage [(originReadmeFile, "PRIOR")] (renderAll [])) "README.md" =
      some ("PRIOR" ++ (markdownTableHeaderTmpl ++ renderAll [])) ∧
    fsLookup (mainWriteStage [(originReadmeFile, "PRIOR")] (renderAll []))
      originReadmeFile = none) :=
  ⟨by decide, c7_write_appends_and_renames [(originReadmeFile, "PRIOR")] "PRIOR" []
    (by decide)⟩

/-- C3 counterexample: with an empty filesystem (the staging file
`./README-1.md` does not exist) and an otherwise successful run, the
open does fail (`none`), yet the process does not abort: the run
completes with no panic (first component `none`) and leaves the
filesystem unchanged, so in particular no `README.md` is produced.  The
statement of the claim that the process aborts is false: every error of the
write stage is discarded by the source (`f, _ :=` on line 209,
`_, _ =` on lines 211-212, `_ =` on line 213). -/
theorem c3_missing_staging_counterexample :
    osOpenFileAppend ([] : FS) originReadmeFile = none ∧
    mainModel (Except.ok { Login := "u", Repositories := { Nodes := [] } }) 0 [] =
      (none, ([] : FS)) ∧
    fsLookup ([] : FS) "README.md" = none := by
  refine ⟨rfl, rfl, rfl⟩

/-- C3 amended: if the staging file does not exist when the write stage
opens it, the open fails, but the error is discarded and the process
continues; the writes and the rename silently fail, the filesystem is
left unchanged (hence no output file is produced), and the process
terminates normally rather than aborting. -/
theorem c3_missing_staging_no_abort (fs : FS) (buf : String)
    (h : fsLookup fs originReadmeFile = none) :
    osOpenFileAppend fs originReadmeFile = none ∧ mainWriteStage fs buf = fs := by
  have e1 : osOpenFileAppend fs originReadmeFile = none := by
    show (match fsLookup fs originReadmeFile with
      | some _ => some originReadmeFile
      | none => none) = none
    rw [h]
  refine ⟨e1, ?_⟩
  show osRename
      (fileWriteString
        (fileWriteString fs (osOpenFileAppend fs originReadmeFile)
          markdownTableHeaderTmpl)
        (osOpenFileAppend fs originReadmeFile) buf)
      originReadmeFile "README.md" = fs
  rw [e1]
  show (match fsLookup fs originReadmeFile with
    | none => fs
    | some c => fsSet (fsRemove fs originReadmeFile) "README.md" c) = fs
  rw [h]

/-- Witness for the amended C3 at a concrete filesystem. -/
theorem c3_missing_staging_no_abort_witness :
    fsLookup [("other.txt", "x")] originReadmeFile = none ∧
    (osOpenFileAppend [("other.txt", "x")] originReadmeFile = none ∧
      mainWriteStage [("other.txt", "x")] "row" = [("other.txt", "x")]) :=
  ⟨by decide, c3_missing_staging_no_abort [("other.txt", "x")] "row" (by decide)⟩

/-- C8: If the GraphQL query fails to execute, `fetchLatestProjects`
panics (`panic(err)` on line 140) before any record is built, rendered
or written: the run terminates with the panic and the filesystem is
exactly the input one, so there is no partial output.  The pipeline
issues the single query once, so there is no retry to model. -/
theorem c8_query_failure_is_fatal (msg : String) (baseTime : Int) (fs : FS) :
    mainModel (Except.error msg) baseTime fs = (some msg, fs) := rfl

/-! ### Lemmas about the transform stage -/

/-- Characterisation of a successfully built display record: its time
field is the formatted rounded elapsed duration, and its language field
is the defaulted primary language. -/
lemma buildEntryCore_Time (baseTime : Int) (repo : RepoNode) (refEdge : RefEdge)
    (histEdge : HistoryEdge) :
    (buildEntryCore baseTime repo refEdge histEdge).Time =
      fmtDuration (durationRound (baseTime - repo.PushedAt) nsMinute) := by
  unfold buildEntryCore
  by_cases hl : repo.PrimaryLanguage.Name = "" <;> simp [hl]

lemma buildEntryCore_lang_empty (baseTime : Int) (repo : RepoNode) (refEdge : RefEdge)
    (histEdge : HistoryEdge) (hl : repo.PrimaryLanguage.Name = "") :
    (buildEntryCore baseTime repo refEdge histEdge).RepoLang = "unknown" := by
  simp [buildEntryCore, hl]

lemma buildEntryCore_lang_nonempty (baseTime : Int) (repo : RepoNode) (refEdge : RefEdge)
    (histEdge : HistoryEdge) (hl : ¬ repo.PrimaryLanguage.Name = "") :
    (buildEntryCore baseTime repo refEdge histEdge).RepoLang =
      repo.PrimaryLanguage.Name := by
  simp [buildEntryCore, hl]

lemma buildEntry_fields (baseTime : Int) (repo : RepoNode) (e : latestProjectEntry)
    (hok : buildEntry baseTime repo = Except.ok e) :
    e.Time = fmtDuration (durationRound (baseTime - repo.PushedAt) nsMinute) ∧
    (repo.PrimaryLanguage.Name = "" → e.RepoLang = "unknown") ∧
    (repo.PrimaryLanguage.Name ≠ "" → e.RepoLang = repo.PrimaryLanguage.Name) := by
  unfold buildEntry at hok
  split at hok
  · exact absurd hok (by simp)
  · split at hok
    · exact absurd hok (by simp)
    · simp only [Except.ok.injEq] at hok
      subst hok
      exact ⟨buildEntryCore_Time _ _ _ _,
        fun hl => buildEntryCore_lang_empty _ _ _ _ hl,
        fun hl => buildEntryCore_lang_nonempty _ _ _ _ hl⟩

/-- Behaviour of `time.Duration.Round` at granularity one minute on a
non-negative duration small enough not to hit the `int64` saturation
branch (any realistic elapsed time; the cut-off is about 292 years):
the result is non-negative, a whole number of minutes, and within half
a minute of the input. -/
lemma durationRound_minute_spec (d : Int) (hd : 0 ≤ d)
    (hb : d ≤ maxDuration - nsMinute) :
    0 ≤ durationRound d nsMinute ∧
    (durationRound d nsMinute).tmod nsMinute = 0 ∧
    2 * |durationRound d nsMinute - d| ≤ nsMinute := by
  have hm : (0 : Int) < nsMinute := by norm_num [nsMinute]
  have hr0 : 0 ≤ d.tmod nsMinute := Int.tmod_nonneg _ hd
  have hrlt : d.tmod nsMinute < nsMinute := Int.tmod_lt_of_pos d hm
  have hdq : d.tmod nsMinute + nsMinute * d.tdiv nsMinute = d := Int.tmod_add_tdiv d nsMinute
  have hq0 : 0 ≤ d.tdiv nsMinute := Int.tdiv_nonneg hd hm.le
  have ht0 : 0 ≤ nsMinute * d.tdiv nsMinute := mul_nonneg hm.le hq0
  have hround : durationRound d nsMinute =
      if d.tmod nsMinute + d.tmod nsMinute < nsMinute
      then d - d.tmod nsMinute
      else d + nsMinute - d.tmod nsMinute := by
    unfold durationRound
    rw [if_neg (not_le.mpr hm)]
    show (if d < 0 then _ else _) = _
    rw [if_neg (not_lt.mpr hd)]
    show (if d.tmod nsMinute + d.tmod nsMinute < nsMinute
      then d - d.tmod nsMinute
      else if d + nsMinute - d.tmod nsMinute ≤ maxDuration
        then d + nsMinute - d.tmod nsMinute
        else maxDuration) = _
    by_cases hc : d.tmod nsMinute + d.tmod nsMinute < nsMinute
    · rw [if_pos hc, if_pos hc]
    · rw [if_neg hc, if_neg hc, if_pos (by omega)]
  rw [hround]
  by_cases hc : d.tmod nsMinute + d.tmod nsMinute < nsMinute
  · rw [if_pos hc]
    refine ⟨by omega, ?_, ?_⟩
    · have h1 : d - d.tmod nsMinute = nsMinute * d.tdiv nsMinute := by omega
      rw [h1, Int.mul_tmod_right]
    · rw [show d - d.tmod nsMinute - d = -(d.tmod nsMinute) by ring, abs_neg,
        abs_of_nonneg hr0]
      omega
  · rw [if_neg hc]
    refine ⟨by omega, ?_, ?_⟩
    · have h1 : d + nsMinute - d.tmod nsMinute = nsMinute * (d.tdiv nsMinute + 1) := by
        rw [mul_add, mul_one]
        omega
      rw [h1, Int.mul_tmod_right]
    · rw [show d + nsMinute - d.tmod nsMinute - d = nsMinute - d.tmod nsMinute by ring,
        abs_of_nonneg (by omega)]
      omega

/-- C4: For every repository node (whose push timestamp is not in the
future and whose elapsed time stays in `int64` range), the transformer
derives the elapsed-time field as the current wall-clock time minus the
push timestamp rounded to the nearest minute — a non-negative duration
that is a whole number of minutes within half a minute of the exact
difference — formatted as `"<H> hours <M> minutes"` where `H` is the
untruncated hour count and `M` the leftover minutes; there is no day or
week unit, so a duration of at least 24 hours yields an hour count of at
least 24 (the witness shows `"27 hours 30 minutes"`). -/
theorem c4_elapsed_time_derivation (baseTime : Int) (repo : RepoNode)
    (e : latestProjectEntry)
    (hok : buildEntry baseTime repo = Except.ok e)
    (hpast : repo.PushedAt ≤ baseTime)
    (hbound : baseTime - repo.PushedAt ≤ maxDuration - nsMinute) :
    0 ≤ durationRound (baseTime - repo.PushedAt) nsMinute ∧
    (durationRound (baseTime - repo.PushedAt) nsMinute).tmod nsMinute = 0 ∧
    2 * |durationRound (baseTime - repo.PushedAt) nsMinute -
      (baseTime - repo.PushedAt)| ≤ nsMinute ∧
    e.Time =
      toString ((durationRound (baseTime - repo.PushedAt) nsMinute).tdiv nsHour) ++
      " hours " ++
      toString ((durationRound (baseTime - repo.PushedAt) nsMinute -
        (durationRound (baseTime - repo.PushedAt) nsMinute).tdiv nsHour * nsHour).tdiv
          nsMinute) ++
      " minutes" ∧
    (24 * nsHour ≤ durationRound (baseTime - repo.PushedAt) nsMinute →
      24 ≤ (durationRound (baseTime - repo.PushedAt) nsMinute).tdiv nsHour) := by
  have hd : 0 ≤ baseTime - repo.PushedAt := by omega
  obtain ⟨h0, hmod, hhalf⟩ :=
    durationRound_minute_spec (baseTime - repo.PushedAt) hd hbound
  refine ⟨h0, hmod, hhalf, ?_, ?_⟩
  · rw [(buildEntry_fields baseTime repo e hok).1]
    rfl
  · intro h24
    have hH : (0 : Int) < nsHour := by norm_num [nsHour, nsMinute]
    rw [Int.tdiv_eq_ediv h0 hH.le]
    exact (Int.le_ediv_iff_mul_le hH).mpr (by omega)

/-- Sample query data shared by several witnesses. -/
def sampleUser : GqlUser :=
  { Login := "alice", Url := "https://example.com/alice" }

def sampleHistoryEdge : HistoryEdge :=
  { Node :=
    { CommitUrl := "https://example.com/c"
      AbbreviatedOid := "abc123"
      Author := { User := sampleUser } } }

def sampleRefEdge : RefEdge :=
  { Node :=
    { Name := "main"
      Target := { Commit := { History := { Edges := [sampleHistoryEdge] } } } } }

def sampleRepo : RepoNode :=
  { Name := "foo"
    Description := ""
    Url := "https://example.com/foo"
    PrimaryLanguage := { Name := "Go" }
    PushedAt := 0
    IsFork := false
    Refs := { Edges := [sampleRefEdge] } }

/-- The display record that `buildEntry` produces from `sampleRepo` at
wall-clock time 27 hours, 30 minutes and 20 nanoseconds past the epoch. -/
def sampleEntry : latestProjectEntry :=
  { RepoName := "foo"
    RepoUrl := "https://example.com/foo"
    RepoLang := "Go"
    BranchName := "main"
    BranchUrl := "https://example.com/foo/tree/main"
    CommitID := "abc123"
    CommitUrl := "https://example.com/c"
    CommitAuthorID := "alice"
    CommitAuthorUrl := "https://example.com/alice"
    Time := "27 hours 30 minutes" }

/-- Witness for C4 at a concrete node: the elapsed time of 27 hours,
30 minutes and 20 nanoseconds is rounded down to a whole 27 hours and
30 minutes and formatted with an hour count beyond 24. -/
theorem c4_elapsed_time_derivation_witness :
    buildEntry 99000000000020 sampleRepo = Except.ok sampleEntry ∧
    sampleRepo.PushedAt ≤ 99000000000020 ∧
    99000000000020 - sampleRepo.PushedAt ≤ maxDuration - nsMinute ∧
    (0 ≤ durationRound (99000000000020 - sampleRepo.PushedAt) nsMinute ∧
    (durationRound (99000000000020 - sampleRepo.PushedAt) nsMinute).tmod nsMinute = 0 ∧
    2 * |durationRound (99000000000020 - sampleRepo.PushedAt) nsMinute -
      (99000000000020 - sampleRepo.PushedAt)| ≤ nsMinute ∧
    sampleEntry.Time =
      toString ((durationRound (99000000000020 - sampleRepo.PushedAt) nsMinute).tdiv
        nsHour) ++
      " hours " ++
      toString ((durationRound (99000000000020 - sampleRepo.PushedAt) nsMinute -
        (durationRound (99000000000020 - sampleRepo.PushedAt) nsMinute).tdiv nsHour *
          nsHour).tdiv nsMinute) ++
      " minutes" ∧
    (24 * nsHour ≤ durationRound (99000000000020 - sampleRepo.PushedAt) nsMinute →
      24 ≤ (durationRound (99000000000020 - sampleRepo.PushedAt) nsMinute).tdiv
        nsHour)) :=
  ⟨rfl, by decide, by decide,
    c4_elapsed_time_derivation 99000000000020 sampleRepo sampleEntry rfl
      (by decide) (by decide)⟩

/-- C5: For every repository node that transforms successfully, an empty
primary-language name yields the literal language `"unknown"` on the
display record, and a non-empty name is passed through unchanged. -/
theorem c5_language_defaulting (baseTime : Int) (repo : RepoNode)
    (e : latestProjectEntry)
    (hok : buildEntry baseTime repo = Except.ok e) :
    (repo.PrimaryLanguage.Name = "" → e.RepoLang = "unknown") ∧
    (repo.PrimaryLanguage.Name ≠ "" → e.RepoLang = repo.PrimaryLanguage.Name) :=
  ⟨(buildEntry_fields baseTime repo e hok).2.1,
    (buildEntry_fields baseTime repo e hok).2.2⟩

def noLangRepo : RepoNode :=
  { sampleRepo with PrimaryLanguage := { Name := "" } }

/-- The record built from `noLangRepo` at wall-clock time 0. -/
def noLangEntry : latestProjectEntry :=
  { sampleEntry with RepoLang := "unknown", Time := "0 hours 0 minutes" }

/-- Witness for C5 at a concrete node with an empty primary language. -/
theorem c5_language_defaulting_witness :
    buildEntry 0 noLangRepo = Except.ok noLangEntry ∧
    noLangRepo.PrimaryLanguage.Name = "" ∧
    noLangEntry.RepoLang = "unknown" :=
  ⟨rfl, rfl, (c5_language_defaulting 0 noLangRepo noLangEntry rfl).1 rfl⟩

/-- The record of the C6 example: repo `"foo"`, branch `"main"`, commit
`"abc123"`, author `"alice"`, elapsed `"3 hours 15 minutes"`, language
`"Go"`. -/
def rowEntry : latestProjectEntry :=
  { sampleEntry with Time := "3 hours 15 minutes" }

/-- C6: Rendering a display record with known field values produces
exactly the literal Markdown table-row string obtained by substituting
those fields into the documented row template. -/
theorem c6_render_row_literal :
    renderRow rowEntry =
      "| [foo](https://example.com/foo) | [main](https://example.com/foo/tree/main) |[abc123](https://example.com/c) | [@alice](https://example.com/alice) |3 hours 15 minutes | ![](https://img.shields.io/badge/language-Go-default.svg?style=flat-square)|\n" := by
  rfl

/-- A repository node whose branch-refs edge array is empty. -/
def emptyRefsRepo : RepoNode :=
  { sampleRepo with Refs := { Edges := [] } }

/-- A repository node with a branch but an empty commit-history edge
array. -/
def emptyHistoryRepo : RepoNode :=
  { sampleRepo with
    Refs := { Edges :=
      [{ Node :=
        { Name := "main"
          Target := { Commit := { History := { Edges := [] } } } } }] } }

/-- C9: For a repository node whose branch-refs edge array (or whose
commit-history edge array) is empty, the transform stage faults on the
unguarded index access: the out-of-range access is reachable, and it
propagates to the whole fetch stage. -/
theorem c9_empty_edges_fault :
    buildEntry 0 emptyRefsRepo = Except.error "runtime error: index out of range" ∧
    buildEntry 0 emptyHistoryRepo = Except.error "runtime error: index out of range" ∧
    fetchLatestProjects
      (Except.ok { Login := "alice", Repositories := { Nodes := [emptyRefsRepo] } }) 0 =
      Except.error "runtime error: index out of range" :=
  ⟨rfl, rfl, rfl⟩

/-- A record whose repository name contains HTML-special characters,
including the plus and equals characters that `htmlReplacementTable`
also escapes. -/
def escEntry : latestProjectEntry :=
  { rowEntry with RepoName := "R&D <C++> = lab" }

set_option maxRecDepth 4000 in
/-- C10: The renderer HTML-escapes record field values: for a record
whose name contains `&`, `<`, `>`, `+` and `=`, the rendered row carries HTML
entity escapes in their place and is not the verbatim substitution of
the fields into the template. -/
theorem c10_renderer_html_escapes :
    renderRow escEntry =
      "| [R&amp;D &lt;C&#43;&#43;&gt; &#61; lab](https://example.com/foo) | [main](https://example.com/foo/tree/main) |[abc123](https://example.com/c) | [@alice](https://example.com/alice) |3 hours 15 minutes | ![](https://img.shields.io/badge/language-Go-default.svg?style=flat-square)|\n" ∧
    renderRow escEntry ≠
      "| [R&D <C++> = lab](https://example.com/foo) | [main](https://example.com/foo/tree/main) |[abc123](https://example.com/c) | [@alice](https://example.com/alice) |3 hours 15 minutes | ![](https://img.shields.io/badge/language-Go-default.svg?style=flat-square)|\n" :=
  ⟨rfl, by decide⟩

end GithubReadme
